import Mathlib

/-!
Shallow embedding of the ThumbnailTextExtractor pipeline
(src/uploader.py, src/ocr_client.py, src/processor.py, src/process_job.py)
together with proofs about the claims of the natural-language specification.

Strings are modelled as lists of Unicode code points (`List Nat`), matching
Python's `str` (a sequence of code points).  Machine floats that the source
only uses for ratio thresholds (0.15, 0.4, 0.5, 0.99) are modelled as exact
rationals; where a float expression is floored to an int we justify in a
comment that the rational floor agrees on all inputs the function can see.
-/

namespace TTE

/-! ## Constants (src/uploader.py and src/processor_settings.py defaults) -/

/-- `MAX_TEXT_LENGTH = 51200` (uploader.py line 42, processor_settings.py). -/
def MAX_TEXT_LENGTH : Nat := 51200

/-- `MAX_THUMBNAIL_SIZE = 1_000_000` (uploader.py line 41). -/
def MAX_THUMBNAIL_SIZE : Nat := 1000000

/-- `TEXT_FALLBACK_MAX_SIZE = 204800` default (processor_settings.py). -/
def TEXT_FALLBACK_MAX_SIZE : Nat := 204800

/-! ## Uploader.sanitize_text (uploader.py lines 157-172)

The source: early-return on empty text; truncate with `text[:MAX_TEXT_LENGTH]`
when longer; `text.replace(chr(0), '')`; then a regex substitution deleting
every character outside the class: x20-x7E, newline, carriage return, tab,
xA0-xFFFF. -/

/-- A code point kept by the character class of `Uploader.sanitize_text`. -/
def allowedChar (c : Nat) : Bool :=
  decide ((0x20 ≤ c ∧ c ≤ 0x7E) ∨ c = 0xA ∨ c = 0xD ∨ c = 0x9 ∨
    (0xA0 ≤ c ∧ c ≤ 0xFFFF))

/-- `Uploader.sanitize_text`: truncate to `MAX_TEXT_LENGTH`, drop NUL,
drop every code point outside the allowed class.  `text[:n]` is `List.take`,
the NUL replace is a filter dropping code point 0, and the regex
substitution by the empty string is a filter keeping `allowedChar`. -/
def sanitize_text (text : List Nat) : List Nat :=
  if text = [] then text
  else ((text.take MAX_TEXT_LENGTH).filter (fun c => c ≠ 0)).filter
    (fun c => allowedChar c)

/-! ## OCR decision (ocr_client.py lines 107-142)

`should_use_ocr(embedded_text, ocr_result)` works on
`emb_len = len(embedded_text.strip())`, `ocr_len = len(ocr_text.strip())`
and `ocr_quality = ocr_result.get("quality", 0.5)`.  We model the function
on those three values directly; the quality is an exact rational. -/

/-- `should_use_ocr` of ocr_client.py, on the stripped lengths and quality. -/
def should_use_ocr (embLen ocrLen : Nat) (quality : ℚ) : Bool × String :=
  -- CASE 1: embedded has nothing
  if embLen < 10 then
    if ocrLen > 50 then (true, "no_embedded_ocr_found_text")
    else (false, "both_empty")
  -- CASE 2: OCR found significantly more
  else if ocrLen > embLen * 2 ∧ ocrLen > 200 then (true, "ocr_found_more")
  -- CASE 3: quality comparison
  else if ocrLen > 100 ∧ quality > 0.4 ∧ (embLen < 500 ∧ quality > 0.5) then
    (true, "ocr_better_for_short_embedded")
  -- DEFAULT
  else (false, "embedded_ok")

/-- Modelled from the spec's words (OCR policy, spec section 4.A): the
decision chain exactly as the specification states it, to be compared
with `should_use_ocr` translated from the source. -/
def spec_ocr_decision (eLen oLen : Nat) (q : ℚ) : Bool :=
  if eLen < 10 ∧ oLen > 50 then true
  else if oLen > 2 * eLen ∧ oLen > 200 then true
  else if oLen > 100 ∧ q > 0.4 ∧ eLen < 500 ∧ q > 0.5 then true
  else false

/-! ## Job state machine (uploader.py, fetcher.py, spec section 3)

One persisted job row carries `processing_status` and `try_count`.  The
fetcher claims `pending` rows (setting `indexing`, try_count untouched).
The uploader ends a job with `update_db_success` (status `done`,
try_count untouched) or `update_db_failed(content_hash, try_count)`
where the incoming value is `meta.get("try_count", 0) + 1`, the metadata
try_count being the row's try_count at claim time (fetcher copies it into
`{hash}.json`).  When the metadata file is missing the uploader passes
`0 + 1 = 1`. -/

inductive Status where
  | pending
  | indexing
  | done
  | error
deriving DecidableEq

structure JobRow where
  status : Status
  try_count : Nat
deriving DecidableEq

/-- The status written by `Uploader.update_db_failed` (uploader.py line 238):
`"error" if try_count >= MAX_RETRIES else "pending"`. -/
def update_db_failed_status (MAX_RETRIES try_count : Nat) : Status :=
  if try_count ≥ MAX_RETRIES then Status.error else Status.pending

/-- One database transition of a job row. -/
inductive JobStep (MAX_RETRIES : Nat) : JobRow → JobRow → Prop where
  /-- `claim_pending_file_content`: pending row goes to indexing. -/
  | claim (t : Nat) :
      JobStep MAX_RETRIES ⟨Status.pending, t⟩ ⟨Status.indexing, t⟩
  /-- `update_db_success`: status done, try_count not updated. -/
  | succeed (t : Nat) :
      JobStep MAX_RETRIES ⟨Status.indexing, t⟩ ⟨Status.done, t⟩
  /-- `update_db_failed(hash, meta.try_count + 1)` where the metadata
  carries the row's try_count `t` from claim time. -/
  | fail (t : Nat) :
      JobStep MAX_RETRIES ⟨Status.indexing, t⟩
        ⟨update_db_failed_status MAX_RETRIES (t + 1), t + 1⟩
  /-- `update_db_failed(hash, 0 + 1)` when the metadata file is missing
  (uploader.py lines 349-351: `meta = {}`). -/
  | failNoMeta (t : Nat) :
      JobStep MAX_RETRIES ⟨Status.indexing, t⟩
        ⟨update_db_failed_status MAX_RETRIES 1, 1⟩

/-- Job rows reachable from a fresh row (`pending`, try_count 0). -/
inductive JobReachable (MAX_RETRIES : Nat) : JobRow → Prop where
  | init : JobReachable MAX_RETRIES ⟨Status.pending, 0⟩
  | step {s s' : JobRow} : JobReachable MAX_RETRIES s →
      JobStep MAX_RETRIES s s' → JobReachable MAX_RETRIES s'

/-- Inductive invariant of the job state machine: try_count is bounded by
`MAX_RETRIES`, and a claimable or in-flight row still has a retry left. -/
def JobInv (MAX_RETRIES : Nat) (s : JobRow) : Prop :=
  s.try_count ≤ MAX_RETRIES ∧
    ((s.status = Status.pending ∨ s.status = Status.indexing) →
      s.try_count < MAX_RETRIES)

/-! ## Uploader.process_done (uploader.py lines 259-322)

The output volume is modelled, for the files of one job, as a list of
(hash, suffix) pairs: `(h, "result.json")` stands for `{h}.result.json`
and so on.  `cleanup_output` globs `{hash}.*`, i.e. removes every file
whose hash component is `h`. -/

/-- The `{hash}.result.json` content, as far as `process_done` reads it. -/
structure ResultJson where
  success : Bool
  /-- truthiness of `result.get("thumbnail_file")` -/
  thumbnail_file : Bool
  /-- `result.get("extracted_text")` (`none` for absent, null or empty) -/
  extracted_text : Option (List Nat)

/-- The on-disk thumbnail as far as `sanitize_thumbnail` inspects it:
whether `Image.open` succeeds, the file size, and whether the
convert/new/paste/save re-encoding runs without exception. -/
structure ThumbnailFile where
  openOk : Bool
  size : Nat
  reencodeOk : Bool

/-- `Uploader.sanitize_thumbnail` (uploader.py lines 125-155): open the
image (exception means `False`); the dimension check only logs; reject
when the input file is larger than `MAX_THUMBNAIL_SIZE`; re-encode
(exception means `False`), else `True`. -/
def sanitize_thumbnail (t : ThumbnailFile) : Bool :=
  if t.openOk = false then false
  else if t.size > MAX_THUMBNAIL_SIZE then false
  else t.reencodeOk

/-- `Uploader.forward_processor_logs`: forwards and then unlinks
`{hash}.log` (uploader.py lines 111-123). -/
def forward_processor_logs (h : String) (files : List (String × String)) :
    List (String × String) :=
  files.filter (fun f => f ≠ (h, "log"))

/-- `Uploader.cleanup_output` (uploader.py lines 318-322): unlink every
`OUTPUT_DIR` file matching `{hash}.*`. -/
def cleanup_output (h : String) (files : List (String × String)) :
    List (String × String) :=
  files.filter (fun f => f.1 ≠ h)

/-- What `process_done` leaves behind: the files of the job remaining in
the output volume, whether a thumbnail upload was attempted, and the
`thumbnail_path` value passed to `update_db_success`. -/
structure DoneOutcome where
  files : List (String × String)
  upload_attempted : Bool
  thumbnail_path : Option String
deriving DecidableEq

/-- `Uploader.process_done` (uploader.py lines 259-310), tracking its
effect on the job's files in the output volume.  `uploadOk` abstracts the
outcome of `upload_thumbnail`; `dbOk` abstracts `update_db_success` —
when it is false the code calls `update_db_failed`, which touches no
files, and falls through to the same `cleanup_output` call. -/
def process_done (h : String) (files : List (String × String))
    (res : ResultJson) (thumb : ThumbnailFile) (uploadOk dbOk : Bool) :
    DoneOutcome :=
  let fs := forward_processor_logs h files
  if (h, "result.json") ∈ fs then
    if res.success then
      if res.thumbnail_file ∧ (h, "thumbnail.png") ∈ fs then
        if sanitize_thumbnail thumb then
          -- `{hash}.sanitized.png` is written, then unlinked after the
          -- upload attempt (uploader.py line 293)
          let fs2 := ((h, "sanitized.png") :: fs).filter
            (fun f => f ≠ (h, "sanitized.png"))
          if uploadOk then
            ⟨cleanup_output h fs2, true, some (h ++ ".png")⟩
          else
            -- upload failed: thumbnail_storage_path reset to None
            ⟨cleanup_output h fs2, true, none⟩
        else
          -- sanitize_thumbnail returned False: no upload, no path
          ⟨cleanup_output h fs, false, none⟩
      else
        ⟨cleanup_output h fs, false, none⟩
    else
      -- success=false: update_db_failed, cleanup_output, return
      ⟨cleanup_output h fs, false, none⟩
  else
    -- result.json missing: update_db_failed, then plain `return` —
    -- no cleanup_output on this path
    ⟨fs, false, none⟩

/-- `Uploader.process_failed` (uploader.py lines 312-316): update the
database, then `cleanup_output`. -/
def process_failed (h : String) (files : List (String × String)) :
    List (String × String) :=
  cleanup_output h files

/-! ## create_cover_thumbnail (processor.py lines 82-95) -/

/-- A PIL image, reduced to its pixel dimensions. -/
structure PILImage where
  width : Nat
  height : Nat
deriving DecidableEq

/-- `img.crop((left, upper, right, lower))` yields an image of exactly
`(right - left, lower - upper)` pixels (clamped at zero). -/
def pilCrop (left upper right lower : Int) : PILImage :=
  ⟨(right - left).toNat, (lower - upper).toNat⟩

/-- `img.resize((w, h), LANCZOS)` yields an image of exactly `(w, h)`. -/
def pilResize (img : PILImage) (w h : Nat) : PILImage :=
  ⟨w, h⟩

/-- `THUMBNAIL_CROP_POSITION` default (processor_settings.py line 15). -/
def THUMBNAIL_CROP_POSITION : String := "top"

/-- `create_cover_thumbnail` (processor.py lines 82-95).  The float ratio
comparison and the `int(...)` floors are modelled with exact rationals /
`Nat` floor division; whichever branch is taken, the function ends with
`img.resize((width, height))`. -/
def create_cover_thumbnail (img : PILImage) (width height : Nat) : PILImage :=
  let target_ratio : ℚ := (width : ℚ) / (height : ℚ)
  let img_ratio : ℚ := (img.width : ℚ) / (img.height : ℚ)
  let cropped : PILImage :=
    if img_ratio > target_ratio then
      -- new_width = int(img.height * target_ratio)
      let new_width : Nat := img.height * width / height
      let left : Int := ((img.width : Int) - (new_width : Int)) / 2
      pilCrop left 0 (left + new_width) img.height
    else
      -- new_height = int(img.width / target_ratio)
      let new_height : Nat := img.width * height / width
      let top : Int := if THUMBNAIL_CROP_POSITION = "top" then 0
        else ((img.height : Int) - (new_height : Int)) / 2
      pilCrop 0 top img.width (top + new_height)
  pilResize cropped width height

/-! ## find_gap_splits (processor.py lines 247-278) -/

/-- `np.argmax` over a boolean vector: index of the first `true`
(0 when the vector has no `true`). -/
def firstTrue : List Bool → Nat
  | [] => 0
  | true :: _ => 0
  | false :: l => firstTrue l + 1

/-- `len(a) - np.argmax(a[::-1])`: one past the index of the last `true`. -/
def lastTrue (l : List Bool) : Nat :=
  l.length - firstTrue l.reverse

/-- Loop state of `find_gap_splits`: `in_gap`, `gap_start`, `splits`. -/
structure GapState where
  in_gap : Bool
  gap_start : Nat
  splits : List Nat

/-- One iteration of the `for i in range(first, last)` loop of
`find_gap_splits`. -/
def gapStep (l : List Bool) (gap_threshold : Nat) (st : GapState) (i : Nat) :
    GapState :=
  if l.getD i false = false then
    if st.in_gap = false then ⟨true, i, st.splits⟩ else st
  else
    if st.in_gap then
      ⟨false, st.gap_start,
        if i - st.gap_start ≥ gap_threshold then st.splits ++ [i]
        else st.splits⟩
    else st

/-- `find_gap_splits(has_content, 0.15)` (processor.py lines 247-278).
`int(content_span * 0.15)` with the IEEE double 0.15 agrees with the
rational floor `content_span * 15 / 100` for every span below 2^50, since
the relative error of the product stays under half an ulp of the nearest
multiple of 3/20. -/
def find_gap_splits (l : List Bool) : List Nat :=
  if l.any (fun b => b) = false then []
  else
    let first := firstTrue l
    let last := lastTrue l
    let content_span := last - first
    if content_span = 0 then []
    else
      let gap_threshold := content_span * 15 / 100
      if gap_threshold < 10 then []
      else
        ((List.range' first content_span).foldl
          (gapStep l gap_threshold) ⟨false, 0, []⟩).splits

/-- A maximal run of no-content positions `[s, e)` strictly inside the
content span: content right before it (`s - 1`) and right after it (`e`).
Since the neighbours carry content, such a run lies strictly between
`firstTrue` and `lastTrue` and is maximal. -/
def gapAt (l : List Bool) (s e : Nat) : Prop :=
  1 ≤ s ∧ s < e ∧ l.getD (s - 1) false = true ∧ l.getD e false = true ∧
    ∀ i, i < e → s ≤ i → l.getD i false = false

instance (l : List Bool) (s e : Nat) : Decidable (gapAt l s e) := by
  unfold gapAt
  infer_instance

/-- A position `e` qualifies as a split end for threshold `thr`: it closes
a maximal interior gap of length at least `thr`. -/
def QualGap (l : List Bool) (thr e : Nat) : Prop :=
  ∃ s, gapAt l s e ∧ thr ≤ e - s

/-- Loop invariant of the gap scan, after the positions `[first, j)` have
been processed: when not inside a gap, the previous position (if any past
`first`) carries content; when inside one, `gap_start` marks a false run
reaching back to a content position; and `splits` holds exactly the
qualifying split ends below `j`. -/
def GapInv (l : List Bool) (thr first j : Nat) (st : GapState) : Prop :=
  (st.in_gap = false → (j = first ∨ l.getD (j - 1) false = true)) ∧
    (st.in_gap = true →
      first < st.gap_start ∧ st.gap_start < j ∧
        l.getD (st.gap_start - 1) false = true ∧
        ∀ i, i < j → st.gap_start ≤ i → l.getD i false = false) ∧
    (∀ e, e ∈ st.splits ↔ (e < j ∧ QualGap l thr e))

/-! ## process_file dispatch and process_job main
(processor.py lines 695-800, process_job.py lines 32-95) -/

def THUMBNAIL_IMAGE_EXTENSIONS : List String :=
  [".jpg", ".jpeg", ".png", ".gif", ".webp", ".bmp", ".tiff", ".tif",
   ".heic", ".heif"]

def THUMBNAIL_PDF_EXTENSIONS : List String := [".pdf"]

def THUMBNAIL_DWG_EXTENSIONS : List String := [".dwg", ".dxf"]

def THUMBNAIL_SVG_EXTENSIONS : List String := [".svg"]

def THUMBNAIL_VIDEO_EXTENSIONS : List String :=
  [".mov", ".mp4", ".avi", ".webm", ".mkv", ".m4v"]

def THUMBNAIL_OFFICE_EXTENSIONS : List String :=
  [".xlsx", ".xls", ".xlsm", ".ods", ".docx", ".doc", ".docm", ".odt",
   ".pptx", ".ppt", ".pptm", ".odp", ".pages", ".numbers", ".key"]

def TEXT_EXTRACT_EXTENSIONS : List String :=
  [".txt", ".json", ".xml", ".js", ".ts", ".css", ".html", ".md", ".csv",
   ".yaml", ".yml", ".ini", ".cfg", ".conf", ".log", ".py", ".sh", ".bash"]

/-- The extension predicates of processor.py (lines 39-64), on the
already-lowercased suffix produced by `get_file_extension`. -/
def is_image (ext : String) : Bool := ext ∈ THUMBNAIL_IMAGE_EXTENSIONS

def is_pdf (ext : String) : Bool := ext ∈ THUMBNAIL_PDF_EXTENSIONS

def is_dwg (ext : String) : Bool := ext ∈ THUMBNAIL_DWG_EXTENSIONS

def is_office (ext : String) : Bool := ext ∈ THUMBNAIL_OFFICE_EXTENSIONS

def is_svg (ext : String) : Bool := ext ∈ THUMBNAIL_SVG_EXTENSIONS

def is_video (ext : String) : Bool := ext ∈ THUMBNAIL_VIDEO_EXTENSIONS

def is_text_file (ext : String) : Bool := ext ∈ TEXT_EXTRACT_EXTENSIONS

/-- What `process_file` returns: an optional produced thumbnail file and
an optional extracted text. -/
structure ProcOutcome where
  thumbnail_path : Option String
  extracted_text : Option (List Nat)
deriving DecidableEq

/-- The I/O-dependent outcomes of the format branches of `process_file`:
converter, rasterizer, OCR and fallback results.  The three fallbacks of
the unknown-format path are the fields `archive_ok`
(`extract_archive_thumbnail` wrote a thumbnail), `ole_ok`
(`extract_ole_thumbnail` wrote one) and `text_fallback`
(`extract_text_fallback` result). -/
structure ProcEnv where
  dwg_outcome : ProcOutcome
  office_outcome : ProcOutcome
  svg_thumb : Option String
  video_thumb : Option String
  image_thumb : Option String
  image_ocr_text : Option (List Nat)
  pdf_thumb : Option String
  pdf_text : Option (List Nat)
  file_text : Option (List Nat)
  archive_ok : Bool
  ole_ok : Bool
  text_fallback : Option (List Nat)

/-- `process_file` (processor.py lines 695-800): dispatch on the
extension, in source order; unknown extensions run the archive, OLE and
unknown-text fallbacks. -/
def process_file (ext : String) (env : ProcEnv) : ProcOutcome :=
  if is_dwg ext then env.dwg_outcome
  else if is_office ext then env.office_outcome
  else if is_svg ext then ⟨env.svg_thumb, none⟩
  else if is_video ext then ⟨env.video_thumb, none⟩
  else if is_image ext then ⟨env.image_thumb, env.image_ocr_text⟩
  else if is_pdf ext then ⟨env.pdf_thumb, env.pdf_text⟩
  else if is_text_file ext then ⟨none, env.file_text⟩
  else
    let tp := if env.archive_ok then some "archive-thumbnail" else none
    let tp := if tp = none then
        (if env.ole_ok then some "ole-thumbnail" else none)
      else tp
    -- extracted_text is still None on this path, so the text fallback runs
    ⟨tp, env.text_fallback⟩

/-- The `result.json` written by `process_job.main`. -/
structure JobResult where
  success : Bool
  thumbnail_file : Option String
  extracted_text : Option (List Nat)
  error : Option String
deriving DecidableEq

/-- `process_job.main` result construction (process_job.py lines 57-95)
for a run in which `process_file` raises no exception: `success` becomes
true; `thumbnail_file` is set to `"thumbnail.png"` only when a thumbnail
path was returned (and the file exists, which our `some` encodes);
`extracted_text` is set only when truthy (non-empty). -/
def process_job_result (ext : String) (env : ProcEnv) : JobResult :=
  let out := process_file ext env
  { success := true
    thumbnail_file :=
      if out.thumbnail_path.isSome then some "thumbnail.png" else none
    extracted_text :=
      match out.extracted_text with
      | some t => if t ≠ [] then some t else none
      | none => none
    error := none }

/-! ## Text extraction results (processor.py lines 477-495, 633-645,
656-692) -/

/-- The code points for which Python's `str.isspace()` holds. -/
def pythonWhitespace : List Nat :=
  [0x9, 0xA, 0xB, 0xC, 0xD, 0x1C, 0x1D, 0x1E, 0x1F, 0x20, 0x85, 0xA0,
   0x1680, 0x2000, 0x2001, 0x2002, 0x2003, 0x2004, 0x2005, 0x2006,
   0x2007, 0x2008, 0x2009, 0x200A, 0x2028, 0x2029, 0x202F, 0x205F,
   0x3000]

/-- Python `c.isspace()` for a single code point. -/
def isspace (c : Nat) : Bool := c ∈ pythonWhitespace

/-- Python `text.strip()`: remove leading and trailing whitespace. -/
def pyStrip (t : List Nat) : List Nat :=
  ((t.dropWhile isspace).reverse.dropWhile isspace).reverse

/-- `extract_text_from_pdf` (processor.py lines 477-495), on the list of
page texts returned by `page.get_text()`.  `openOk` is false when
`fitz.open` (or iteration) raises, which the handler maps to `None`. -/
def extract_text_from_pdf (openOk : Bool) (pages : List (List Nat)) :
    Option (List Nat) :=
  if openOk = false then none
  else
    let text_parts := pages.filter (fun t => (pyStrip t).isEmpty = false)
    let full_text := List.intercalate [0xA, 0xA] text_parts
    let full_text := full_text.filter (fun c => c ≠ 0)
    let full_text := full_text.take MAX_TEXT_LENGTH
    if (pyStrip full_text).isEmpty = false then some full_text else none

/-- `extract_text_from_file` (processor.py lines 633-645): `text` is the
decoded result of `f.read(MAX_TEXT_LENGTH)` (utf-8, falling back to
latin-1); `readOk` is false when reading raises, mapped to `None`. -/
def extract_text_from_file (readOk : Bool) (text : List Nat) :
    Option (List Nat) :=
  if readOk = false then none
  else if (pyStrip text).isEmpty = false then some text else none

/-- `TEXT_FALLBACK_MIN_PRINTABLE = 0.99` default. -/
def TEXT_FALLBACK_MIN_PRINTABLE : ℚ := 99 / 100

/-- `extract_text_fallback` (processor.py lines 656-692).  `raw_data` is
the list of byte values read (`min(file_size, MAX_TEXT_LENGTH)` bytes);
`utf8` is `some` of the decoded code points when the utf-8 decode
succeeds, and `none` when it raises, in which case latin-1 decoding maps
each byte to the equal code point (and never raises, so the inner
`except` returning `None` is dead).  `printable` abstracts Python's
`str.isprintable()` character table. -/
def extract_text_fallback (file_size : Nat) (raw_data : List Nat)
    (utf8 : Option (List Nat)) (printable : Nat → Bool) :
    Option (List Nat) :=
  if file_size > TEXT_FALLBACK_MAX_SIZE then none
  else if 0 ∈ raw_data then none
  else
    let text := match utf8 with
      | some t => t
      | none => raw_data
    if (pyStrip text).isEmpty then none
    else
      let printable_chars :=
        (text.filter (fun c => printable c || (c = 0xA || c = 0xD || c = 0x9))).length
      let printable_ratio : ℚ :=
        if text ≠ [] then (printable_chars : ℚ) / (text.length : ℚ) else 0
      if printable_ratio < TEXT_FALLBACK_MIN_PRINTABLE then none
      else some (text.filter (fun c => c ≠ 0))

/-! ## Theorems -/

/-- Every `JobStep` preserves the inductive invariant. -/
theorem jobStep_preserves_inv {MAX_RETRIES : Nat} {s s' : JobRow}
    (hM : 1 ≤ MAX_RETRIES) (hs : JobInv MAX_RETRIES s)
    (h : JobStep MAX_RETRIES s s') : JobInv MAX_RETRIES s' := by
  cases h with
  | claim t =>
      exact ⟨hs.1, fun _ => hs.2 (Or.inl rfl)⟩
  | succeed t =>
      refine ⟨hs.1, fun hc => ?_⟩
      rcases hc with hc | hc <;> simp at hc
  | fail t =>
      have ht : t < MAX_RETRIES := hs.2 (Or.inr rfl)
      constructor
      · show t + 1 ≤ MAX_RETRIES
        omega
      · intro hc
        show t + 1 < MAX_RETRIES
        have hc' : update_db_failed_status MAX_RETRIES (t + 1) = Status.pending ∨
            update_db_failed_status MAX_RETRIES (t + 1) = Status.indexing := hc
        unfold update_db_failed_status at hc'
        by_cases hge : t + 1 ≥ MAX_RETRIES
        · rcases hc' with hc' | hc' <;> simp [hge] at hc'
        · omega
  | failNoMeta t =>
      constructor
      · show 1 ≤ MAX_RETRIES
        exact hM
      · intro hc
        show 1 < MAX_RETRIES
        have hc' : update_db_failed_status MAX_RETRIES 1 = Status.pending ∨
            update_db_failed_status MAX_RETRIES 1 = Status.indexing := hc
        unfold update_db_failed_status at hc'
        by_cases hge : 1 ≥ MAX_RETRIES
        · rcases hc' with hc' | hc' <;> simp [hge] at hc'
        · omega

/-- C1: for every reachable job row (in particular after every failure the
Uploader records through `update_db_failed`), the persisted try_count never
exceeds MAX_RETRIES, and when it equals MAX_RETRIES the status is done or
error. -/
theorem C1_try_count_invariant {MAX_RETRIES : Nat} {s : JobRow}
    (hM : 1 ≤ MAX_RETRIES) (hr : JobReachable MAX_RETRIES s) :
    s.try_count ≤ MAX_RETRIES ∧
      (s.try_count = MAX_RETRIES →
        s.status = Status.done ∨ s.status = Status.error) := by
  have hinv : JobInv MAX_RETRIES s := by
    induction hr with
    | init =>
        exact ⟨by show 0 ≤ MAX_RETRIES; omega,
          fun _ => by show 0 < MAX_RETRIES; omega⟩
    | step _ hstep ih => exact jobStep_preserves_inv hM ih hstep
  refine ⟨hinv.1, fun heq => ?_⟩
  cases hst : s.status with
  | pending => have := hinv.2 (Or.inl hst); omega
  | indexing => have := hinv.2 (Or.inr hst); omega
  | done => exact Or.inl rfl
  | error => exact Or.inr rfl

/-- Witness for C1: with MAX_RETRIES = 3, the row reached by three
claim/fail rounds is ⟨error, 3⟩ and satisfies the invariant. -/
theorem C1_try_count_invariant_witness :
    (1 ≤ 3 ∧ JobReachable 3 ⟨Status.error, 3⟩) ∧
      ((⟨Status.error, 3⟩ : JobRow).try_count ≤ 3 ∧
        ((⟨Status.error, 3⟩ : JobRow).try_count = 3 →
          (⟨Status.error, 3⟩ : JobRow).status = Status.done ∨
            (⟨Status.error, 3⟩ : JobRow).status = Status.error)) := by
  have r1 : JobReachable 3 ⟨Status.pending, 0⟩ := JobReachable.init
  have r2 : JobReachable 3 ⟨Status.indexing, 0⟩ :=
    JobReachable.step r1 (JobStep.claim 0)
  have r3 : JobReachable 3 ⟨Status.pending, 1⟩ :=
    JobReachable.step r2 (JobStep.fail 0)
  have r4 : JobReachable 3 ⟨Status.indexing, 1⟩ :=
    JobReachable.step r3 (JobStep.claim 1)
  have r5 : JobReachable 3 ⟨Status.pending, 2⟩ :=
    JobReachable.step r4 (JobStep.fail 1)
  have r6 : JobReachable 3 ⟨Status.indexing, 2⟩ :=
    JobReachable.step r5 (JobStep.claim 2)
  have r7 : JobReachable 3 ⟨Status.error, 3⟩ :=
    JobReachable.step r6 (JobStep.fail 2)
  exact ⟨⟨by omega, r7⟩, C1_try_count_invariant (by omega) r7⟩

/-- C2: the OCR decision of `should_use_ocr` coincides with the decision
chain stated by the specification, for all stripped lengths and quality. -/
theorem C2_ocr_decision_matches_spec (embLen ocrLen : Nat) (q : ℚ) :
    (should_use_ocr embLen ocrLen q).1 = spec_ocr_decision embLen ocrLen q := by
  unfold should_use_ocr spec_ocr_decision
  split_ifs <;> simp_all <;> omega

/-- The sanitized text never exceeds `MAX_TEXT_LENGTH` code points. -/
theorem sanitize_text_length_le (text : List Nat) :
    (sanitize_text text).length ≤ MAX_TEXT_LENGTH := by
  unfold sanitize_text
  split_ifs with h
  · simp [h, MAX_TEXT_LENGTH]
  · calc ((((text.take MAX_TEXT_LENGTH).filter (fun c => c ≠ 0)).filter
          (fun c => allowedChar c))).length
        ≤ ((text.take MAX_TEXT_LENGTH).filter (fun c => c ≠ 0)).length :=
          List.length_filter_le _ _
      _ ≤ (text.take MAX_TEXT_LENGTH).length := List.length_filter_le _ _
      _ ≤ MAX_TEXT_LENGTH := List.length_take_le _ _

/-- Every code point of the sanitized text survived both filters. -/
theorem sanitize_text_mem (text : List Nat) :
    ∀ c ∈ sanitize_text text, c ≠ 0 ∧ allowedChar c = true := by
  unfold sanitize_text
  split_ifs with h
  · simp [h]
  · intro c hc
    have hall : allowedChar c = true := by
      have := List.of_mem_filter hc
      simpa using this
    have hc1 := List.mem_of_mem_filter hc
    have h0 : c ≠ 0 := by
      have := List.of_mem_filter hc1
      simpa using this
    exact ⟨h0, hall⟩

/-- C3: sanitized text is truncated to MAX_TEXT_LENGTH and contains no
NUL, no control character besides tab, newline and carriage return, and no
code point outside the allowed class. -/
theorem C3_sanitize_text_sound (text : List Nat) :
    (sanitize_text text).length ≤ MAX_TEXT_LENGTH ∧
      ∀ c ∈ sanitize_text text,
        c ≠ 0 ∧ (c < 0x20 → c = 0x9 ∨ c = 0xA ∨ c = 0xD) ∧
          allowedChar c = true := by
  refine ⟨sanitize_text_length_le text, fun c hc => ?_⟩
  obtain ⟨h0, hall⟩ := sanitize_text_mem text c hc
  refine ⟨h0, fun hlt => ?_, hall⟩
  unfold allowedChar at hall
  simp only [decide_eq_true_eq] at hall
  omega

/-- Witness for C3 at the concrete input [0, 65, 31]: the sanitized text
keeps 65 and satisfies the bounds. -/
theorem C3_sanitize_text_sound_witness :
    (65 : Nat) ∈ sanitize_text [0, 65, 31] ∧
      (sanitize_text [0, 65, 31]).length ≤ MAX_TEXT_LENGTH ∧
      ((65 : Nat) ≠ 0 ∧
        ((65 : Nat) < 0x20 → (65 : Nat) = 0x9 ∨ (65 : Nat) = 0xA ∨
          (65 : Nat) = 0xD) ∧
        allowedChar 65 = true) :=
  ⟨by decide, (C3_sanitize_text_sound [0, 65, 31]).1,
    (C3_sanitize_text_sound [0, 65, 31]).2 65 (by decide)⟩

/-- C9: `sanitize_text` is idempotent. -/
theorem C9_sanitize_text_idempotent (text : List Nat) :
    sanitize_text (sanitize_text text) = sanitize_text text := by
  by_cases h : text = []
  · subst h; rfl
  · set y := sanitize_text text with hy
    by_cases hy0 : y = []
    · unfold sanitize_text
      rw [if_pos hy0]
    · have hlen : y.length ≤ MAX_TEXT_LENGTH := sanitize_text_length_le text
      have hmem := sanitize_text_mem text
      have h0y : y.filter (fun c => decide (c ≠ 0)) = y :=
        List.filter_eq_self.mpr (fun a ha => by simpa using (hmem a ha).1)
      have hAy : y.filter (fun c => allowedChar c) = y :=
        List.filter_eq_self.mpr (fun a ha => (hmem a ha).2)
      conv_lhs => unfold sanitize_text
      rw [if_neg hy0, List.take_of_length_le hlen, h0y, hAy]

/-- C6: the cover-crop returns an image of exactly the target pixel
dimensions, for every source image and target with positive dimensions
(the final `img.resize((width, height))` fixes the output size). -/
theorem C6_cover_crop_dims (img : PILImage) (w h : Nat)
    (hW : 1 ≤ img.width) (hH : 1 ≤ img.height) (hw : 1 ≤ w) (hh : 1 ≤ h) :
    create_cover_thumbnail img w h = ⟨w, h⟩ := rfl

/-- Witness for C6 at a concrete 1200 x 900 image and 400 x 300 target. -/
theorem C6_cover_crop_dims_witness :
    (1 ≤ (1200 : Nat) ∧ 1 ≤ (900 : Nat) ∧ 1 ≤ (400 : Nat) ∧ 1 ≤ (300 : Nat)) ∧
      create_cover_thumbnail ⟨1200, 900⟩ 400 300 = ⟨400, 300⟩ :=
  ⟨by omega,
    C6_cover_crop_dims ⟨1200, 900⟩ 400 300 (by decide) (by decide) (by decide)
      (by decide)⟩

/-- C7: a thumbnail file larger than 1 MB is rejected by
`sanitize_thumbnail`; consequently `process_done` attempts no upload and
passes no thumbnail_path to the database update. -/
theorem C7_oversized_thumbnail_rejected (h : String)
    (files : List (String × String)) (res : ResultJson)
    (thumb : ThumbnailFile) (uploadOk dbOk : Bool)
    (hsize : thumb.size > MAX_THUMBNAIL_SIZE) :
    sanitize_thumbnail thumb = false ∧
      (process_done h files res thumb uploadOk dbOk).upload_attempted = false ∧
      (process_done h files res thumb uploadOk dbOk).thumbnail_path = none := by
  have hsan : sanitize_thumbnail thumb = false := by
    unfold sanitize_thumbnail
    split_ifs with h1 <;> rfl
  refine ⟨hsan, ?_, ?_⟩ <;>
    · simp only [process_done]
      split_ifs <;> simp_all

/-- Witness for C7 at a concrete 1.5 MB thumbnail. -/
theorem C7_oversized_thumbnail_rejected_witness :
    (⟨true, 1500000, true⟩ : ThumbnailFile).size > MAX_THUMBNAIL_SIZE ∧
      (sanitize_thumbnail ⟨true, 1500000, true⟩ = false ∧
        (process_done "abc" [("abc", "result.json"), ("abc", "thumbnail.png")]
          ⟨true, true, none⟩ ⟨true, 1500000, true⟩ true true).upload_attempted
            = false ∧
        (process_done "abc" [("abc", "result.json"), ("abc", "thumbnail.png")]
          ⟨true, true, none⟩ ⟨true, 1500000, true⟩ true true).thumbnail_path
            = none) :=
  ⟨by decide,
    C7_oversized_thumbnail_rejected "abc"
      [("abc", "result.json"), ("abc", "thumbnail.png")]
      ⟨true, true, none⟩ ⟨true, 1500000, true⟩ true true (by decide)⟩

/-- C8: for an extension matching no known thumbnail or text type, with
all three fallbacks yielding nothing, the processor writes success=true,
no thumbnail_file, no extracted_text and no error. -/
theorem C8_unknown_format_success (ext : String) (env : ProcEnv)
    (h1 : is_dwg ext = false) (h2 : is_office ext = false)
    (h3 : is_svg ext = false) (h4 : is_video ext = false)
    (h5 : is_image ext = false) (h6 : is_pdf ext = false)
    (h7 : is_text_file ext = false)
    (ha : env.archive_ok = false) (ho : env.ole_ok = false)
    (ht : env.text_fallback = none) :
    process_job_result ext env = ⟨true, none, none, none⟩ := by
  simp [process_job_result, process_file, h1, h2, h3, h4, h5, h6, h7, ha,
    ho, ht]

/-- Witness for C8 at extension ".zip" with failing fallbacks. -/
theorem C8_unknown_format_success_witness :
    (is_dwg ".zip" = false ∧ is_office ".zip" = false ∧
      is_svg ".zip" = false ∧ is_video ".zip" = false ∧
      is_image ".zip" = false ∧ is_pdf ".zip" = false ∧
      is_text_file ".zip" = false) ∧
      process_job_result ".zip"
        ⟨⟨none, none⟩, ⟨none, none⟩, none, none, none, none, none, none,
          none, false, false, none⟩ = ⟨true, none, none, none⟩ :=
  ⟨by decide,
    C8_unknown_format_success ".zip"
      ⟨⟨none, none⟩, ⟨none, none⟩, none, none, none, none, none, none,
        none, false, false, none⟩
      (by decide) (by decide) (by decide) (by decide) (by decide)
      (by decide) (by decide) rfl rfl rfl⟩

/-- C4: when `{hash}.result.json` is missing, `process_done` returns
after `update_db_failed` without calling `cleanup_output`, so a
`{hash}.thumbnail.png` left by the orchestrator survives -- evaluating
the code at the failing input. -/
theorem C4_missing_result_leaves_file :
    (process_done "abc" [("abc", "thumbnail.png")] ⟨true, true, none⟩
        ⟨true, 100, true⟩ true true).files = [("abc", "thumbnail.png")] := by
  rfl

/-- `pyStrip` yields the empty string exactly when every code point is
whitespace. -/
theorem pyStrip_eq_nil_iff (t : List Nat) :
    pyStrip t = [] ↔ ∀ c ∈ t, isspace c = true := by
  unfold pyStrip
  constructor
  · intro h c hc
    have h1 : (t.dropWhile isspace).reverse.dropWhile isspace = [] := by
      simpa using congrArg List.reverse h
    have h2 : ∀ x ∈ (t.dropWhile isspace).reverse, isspace x = true :=
      List.dropWhile_eq_nil_iff.mp h1
    have h3 : ∀ x ∈ t.dropWhile isspace, isspace x = true := by
      intro x hx
      exact h2 x (by simpa using hx)
    have ht := List.takeWhile_append_dropWhile (p := isspace) (l := t)
    rw [← ht] at hc
    rcases List.mem_append.mp hc with hc | hc
    · exact List.mem_takeWhile_imp hc
    · exact h3 c hc
  · intro h
    have h1 : t.dropWhile isspace = [] := List.dropWhile_eq_nil_iff.mpr h
    simp [h1]

/-- A string whose `strip()` is non-empty holds a non-whitespace code
point. -/
theorem exists_nonspace_of_strip_ne_nil {t : List Nat}
    (h : (pyStrip t).isEmpty = false) : ∃ c ∈ t, isspace c = false := by
  have h' : ¬(pyStrip t = []) := by
    intro hh
    simp [hh] at h
  have h2 : ¬∀ c ∈ t, isspace c = true := fun hall =>
    h' ((pyStrip_eq_nil_iff t).mpr hall)
  push_neg at h2
  obtain ⟨c, hc, hns⟩ := h2
  exact ⟨c, hc, by simpa using hns⟩

/-- C10: each of the three text extractors returns either `none` or a
string containing at least one non-whitespace code point; an empty or
whitespace-only extraction becomes `none`, never an empty string. -/
theorem C10_extraction_none_or_nonwhitespace :
    (∀ (openOk : Bool) (pages : List (List Nat)) (t : List Nat),
        extract_text_from_pdf openOk pages = some t →
          ∃ c ∈ t, isspace c = false) ∧
      (∀ (readOk : Bool) (text t : List Nat),
        extract_text_from_file readOk text = some t →
          ∃ c ∈ t, isspace c = false) ∧
      (∀ (file_size : Nat) (raw_data : List Nat) (utf8 : Option (List Nat))
          (printable : Nat → Bool) (t : List Nat),
        (∀ u, utf8 = some u → 0 ∈ u → 0 ∈ raw_data) →
        extract_text_fallback file_size raw_data utf8 printable = some t →
          ∃ c ∈ t, isspace c = false) := by
  refine ⟨?_, ?_, ?_⟩
  · intro openOk pages t heq
    simp only [extract_text_from_pdf] at heq
    split_ifs at heq with h1 h2
    obtain rfl : _ = t := Option.some.inj heq
    exact exists_nonspace_of_strip_ne_nil h2
  · intro readOk text t heq
    simp only [extract_text_from_file] at heq
    split_ifs at heq with h1 h2
    obtain rfl : text = t := Option.some.inj heq
    exact exists_nonspace_of_strip_ne_nil h2
  · intro file_size raw_data utf8 printable t hutf heq
    cases utf8 with
    | none =>
        simp only [extract_text_fallback] at heq
        split_ifs at heq with h1 h2 h3 h4 h5 <;>
          · obtain rfl : _ = t := Option.some.inj heq
            have hstrip : (pyStrip raw_data).isEmpty = false := by
              simpa using h3
            obtain ⟨c, hc, hns⟩ := exists_nonspace_of_strip_ne_nil hstrip
            have hc0 : c ≠ 0 := fun hh => h2 (hh ▸ hc)
            exact ⟨c, List.mem_filter.mpr ⟨hc, by simpa using hc0⟩, hns⟩
    | some u =>
        simp only [extract_text_fallback] at heq
        split_ifs at heq with h1 h2 h3 h4 h5 <;>
          · obtain rfl : _ = t := Option.some.inj heq
            have hstrip : (pyStrip u).isEmpty = false := by
              simpa using h3
            obtain ⟨c, hc, hns⟩ := exists_nonspace_of_strip_ne_nil hstrip
            have hc0 : c ≠ 0 := fun hh => h2 (hutf u rfl (hh ▸ hc))
            exact ⟨c, List.mem_filter.mpr ⟨hc, by simpa using hc0⟩, hns⟩

/-- Witness for C10 at concrete inputs for all three extractors. -/
theorem C10_extraction_none_or_nonwhitespace_witness :
    (extract_text_from_pdf true [[72, 105]] = some [72, 105] ∧
        ∃ c ∈ [72, 105], isspace c = false) ∧
      (extract_text_from_file true [72] = some [72] ∧
        ∃ c ∈ [72], isspace c = false) ∧
      (extract_text_fallback 5 [72, 105] none (fun _ => true)
          = some [72, 105] ∧
        ∃ c ∈ [72, 105], isspace c = false) := by
  have h := C10_extraction_none_or_nonwhitespace
  have hfb : extract_text_fallback 5 [72, 105] none (fun _ => true)
      = some [72, 105] := by
    norm_num [extract_text_fallback, pyStrip, isspace, pythonWhitespace,
      TEXT_FALLBACK_MAX_SIZE, TEXT_FALLBACK_MIN_PRINTABLE]
    intro hcontra
    rw [if_neg (by decide)] at hcontra
    norm_num at hcontra
  exact ⟨⟨by decide, h.1 true [[72, 105]] [72, 105] (by decide)⟩,
    ⟨by decide, h.2.1 true [72] [72] (by decide)⟩,
    ⟨hfb, h.2.2 5 [72, 105] none (fun _ => true) [72, 105]
      (fun u hu => absurd hu (by simp)) hfb⟩⟩

/-! ### Lemmas about `firstTrue` and `lastTrue` -/

theorem firstTrue_le_length (l : List Bool) : firstTrue l ≤ l.length := by
  induction l with
  | nil => simp [firstTrue]
  | cons b t ih =>
      cases b with
      | true => simp [firstTrue]
      | false =>
          simp only [firstTrue, List.length_cons]
          omega

theorem firstTrue_lt_length {l : List Bool}
    (h : l.any (fun b => b) = true) : firstTrue l < l.length := by
  induction l with
  | nil => simp at h
  | cons b t ih =>
      cases b with
      | true => simp [firstTrue]
      | false =>
          have h' : t.any (fun b => b) = true := by simpa using h
          simp only [firstTrue, List.length_cons]
          have := ih h'
          omega

theorem getD_firstTrue {l : List Bool}
    (h : l.any (fun b => b) = true) : l.getD (firstTrue l) false = true := by
  induction l with
  | nil => simp at h
  | cons b t ih =>
      cases b with
      | true => rfl
      | false =>
          have h' : t.any (fun b => b) = true := by simpa using h
          simpa [firstTrue] using ih h'

theorem getD_lt_firstTrue {l : List Bool} {i : Nat}
    (h : i < firstTrue l) : l.getD i false = false := by
  induction l generalizing i with
  | nil => simp [firstTrue] at h
  | cons b t ih =>
      cases b with
      | true => simp [firstTrue] at h
      | false =>
          cases i with
          | zero => rfl
          | succ j =>
              simp only [firstTrue] at h
              simpa using ih (show j < firstTrue t by omega)

theorem getD_reverse (l : List Bool) (j : Nat) (h : j < l.length) :
    l.reverse.getD j false = l.getD (l.length - 1 - j) false := by
  rw [List.getD_eq_getElem?_getD, List.getD_eq_getElem?_getD,
    List.getElem?_reverse h]

theorem lastTrue_le_length (l : List Bool) : lastTrue l ≤ l.length := by
  unfold lastTrue
  omega

theorem getD_lastTrue_pred {l : List Bool}
    (h : l.any (fun b => b) = true) :
    l.getD (lastTrue l - 1) false = true := by
  have hrev : l.reverse.any (fun b => b) = true := by
    rw [List.any_reverse]
    exact h
  have h1 := getD_firstTrue hrev
  have hf : firstTrue l.reverse < l.length := by
    have := firstTrue_lt_length hrev
    simpa using this
  rw [getD_reverse l _ (by simpa using hf)] at h1
  have heq : l.length - 1 - firstTrue l.reverse = lastTrue l - 1 := by
    unfold lastTrue
    omega
  rwa [heq] at h1

theorem getD_ge_lastTrue {l : List Bool} {i : Nat}
    (h : lastTrue l ≤ i) : l.getD i false = false := by
  by_cases hi : i < l.length
  · have hfl : firstTrue l.reverse ≤ l.length := by
      have := firstTrue_le_length l.reverse
      simpa using this
    have hj : l.length - 1 - i < firstTrue l.reverse := by
      unfold lastTrue at h
      omega
    have h2 := getD_lt_firstTrue hj
    rw [getD_reverse l _ (by omega)] at h2
    have heq : l.length - 1 - (l.length - 1 - i) = i := by omega
    rwa [heq] at h2
  · rw [List.getD_eq_getElem?_getD]
    rw [List.getElem?_eq_none (by omega)]
    rfl

theorem getD_true_lt_lastTrue {l : List Bool} {i : Nat}
    (h : l.getD i false = true) : i < lastTrue l := by
  by_contra hc
  push_neg at hc
  rw [getD_ge_lastTrue hc] at h
  cases h

theorem firstTrue_le_of_getD_true {l : List Bool} {i : Nat}
    (h : l.getD i false = true) : firstTrue l ≤ i := by
  by_contra hc
  push_neg at hc
  rw [getD_lt_firstTrue hc] at h
  cases h

theorem any_of_getD_true {l : List Bool} {i : Nat}
    (h : l.getD i false = true) : l.any (fun b => b) = true := by
  rw [List.getD_eq_getElem?_getD] at h
  cases hm : l[i]? with
  | none =>
      rw [hm] at h
      cases h
  | some b =>
      rw [hm] at h
      have hb : b = true := h
      refine List.any_eq_true.mpr ⟨true, ?_, rfl⟩
      have := List.getElem?_mem hm
      rwa [hb] at this

/-- The start of a maximal interior gap ending at `e` is unique. -/
theorem gapAt_unique {l : List Bool} {s1 s2 e : Nat}
    (h1 : gapAt l s1 e) (h2 : gapAt l s2 e) : s1 = s2 := by
  obtain ⟨ha1, hb1, hc1, _, he1⟩ := h1
  obtain ⟨ha2, hb2, hc2, _, he2⟩ := h2
  rcases Nat.lt_trichotomy s1 s2 with h | h | h
  · have hf := he1 (s2 - 1) (by omega) (by omega)
    rw [hc2] at hf
    cases hf
  · exact h
  · have hf := he2 (s1 - 1) (by omega) (by omega)
    rw [hc1] at hf
    cases hf

/-- When position `j` carries no content, the set of qualifying split
ends below `j + 1` equals the one below `j`. -/
theorem splits_iff_of_false {l : List Bool} {thr j : Nat}
    (hc : l.getD j false = false) {sp : List Nat}
    (hsp : ∀ e, e ∈ sp ↔ (e < j ∧ QualGap l thr e)) :
    ∀ e, e ∈ sp ↔ (e < j + 1 ∧ QualGap l thr e) := by
  intro e
  rw [hsp e]
  constructor
  · rintro ⟨h1, h2⟩
    exact ⟨by omega, h2⟩
  · rintro ⟨h1, h2⟩
    refine ⟨?_, h2⟩
    by_cases he : e = j
    · subst he
      obtain ⟨s, hs, _⟩ := h2
      rw [hs.2.2.2.1] at hc
      cases hc
    · omega

/-- One loop iteration of the gap scan preserves the invariant. -/
theorem gapStep_inv {l : List Bool} {thr first j : Nat} {st : GapState}
    (hfj : first ≤ j)
    (hft : l.getD first false = true)
    (hfm : ∀ i, i < first → l.getD i false = false)
    (hinv : GapInv l thr first j st) :
    GapInv l thr first (j + 1) (gapStep l thr st j) := by
  obtain ⟨hng, hg, hsp⟩ := hinv
  unfold gapStep
  by_cases hc : l.getD j false = false
  · rw [if_pos hc]
    by_cases hig : st.in_gap = false
    · rw [if_pos hig]
      have hjf : j ≠ first := by
        intro he
        rw [he, hft] at hc
        cases hc
      have hj1 : l.getD (j - 1) false = true := by
        rcases hng hig with h | h
        · exact absurd h hjf
        · exact h
      refine ⟨?_, ?_, ?_⟩
      · intro habs
        cases habs
      · intro _
        refine ⟨?_, ?_, hj1, ?_⟩
        · show first < j
          omega
        · show j < j + 1
          omega
        · intro i hi1 hi2
          have hi2' : j ≤ i := hi2
          have hij : i = j := by omega
          rwa [hij]
      · exact splits_iff_of_false hc hsp
    · rw [if_neg hig]
      have hig' : st.in_gap = true := by
        cases hst : st.in_gap
        · exact absurd hst hig
        · rfl
      obtain ⟨hgs1, hgs2, hgs3, hgs4⟩ := hg hig'
      refine ⟨?_, ?_, ?_⟩
      · intro habs
        rw [hig'] at habs
        cases habs
      · intro _
        refine ⟨hgs1, by omega, hgs3, ?_⟩
        intro i hi1 hi2
        by_cases hij : i < j
        · exact hgs4 i hij hi2
        · have : i = j := by omega
          rwa [this]
      · exact splits_iff_of_false hc hsp
  · rw [if_neg hc]
    have hct : l.getD j false = true := by
      cases hval : l.getD j false
      · exact absurd hval hc
      · rfl
    by_cases hig : st.in_gap = true
    · rw [if_pos hig]
      obtain ⟨hgs1, hgs2, hgs3, hgs4⟩ := hg hig
      have hgap : gapAt l st.gap_start j :=
        ⟨by omega, hgs2, hgs3, hct, fun i hi1 hi2 => hgs4 i hi1 hi2⟩
      refine ⟨?_, ?_, ?_⟩
      · intro _
        right
        rw [Nat.add_sub_cancel]
        exact hct
      · intro habs
        cases habs
      · intro e
        show e ∈ (if j - st.gap_start ≥ thr then st.splits ++ [j]
          else st.splits) ↔ _
        by_cases hsz : j - st.gap_start ≥ thr
        · rw [if_pos hsz]
          constructor
          · intro he
            rcases List.mem_append.mp he with he | he
            · have := (hsp e).mp he
              exact ⟨by omega, this.2⟩
            · simp only [List.mem_singleton] at he
              subst he
              exact ⟨by omega, ⟨st.gap_start, hgap, hsz⟩⟩
          · rintro ⟨h1, h2⟩
            by_cases he : e = j
            · subst he
              exact List.mem_append.mpr (Or.inr (by simp))
            · exact List.mem_append.mpr
                (Or.inl ((hsp e).mpr ⟨by omega, h2⟩))
        · rw [if_neg hsz]
          rw [hsp e]
          constructor
          · rintro ⟨h1, h2⟩
            exact ⟨by omega, h2⟩
          · rintro ⟨h1, h2⟩
            by_cases he : e = j
            · subst he
              obtain ⟨s', hs', hthr'⟩ := h2
              have heqs : s' = st.gap_start := gapAt_unique hs' hgap
              rw [heqs] at hthr'
              exact absurd hthr' hsz
            · exact ⟨by omega, h2⟩
    · rw [if_neg hig]
      have hig' : st.in_gap = false := by
        cases hst : st.in_gap
        · rfl
        · exact absurd hst hig
      refine ⟨?_, ?_, ?_⟩
      · intro _
        right
        rw [Nat.add_sub_cancel]
        exact hct
      · intro habs
        rw [hig'] at habs
        cases habs
      · intro e
        rw [hsp e]
        constructor
        · rintro ⟨h1, h2⟩
          exact ⟨by omega, h2⟩
        · rintro ⟨h1, h2⟩
          by_cases he : e = j
          · exfalso
            obtain ⟨s', hs', hthr'⟩ := h2
            obtain ⟨hs1, hs2, hs3, hs4, hs5⟩ := hs'
            have hrun : l.getD (j - 1) false = false :=
              hs5 (j - 1) (by omega) (by omega)
            rcases hng hig' with hjf | hj1
            · have hlt : s' - 1 < first := by omega
              have := hfm (s' - 1) hlt
              rw [this] at hs3
              cases hs3
            · rw [hj1] at hrun
              cases hrun
          · exact ⟨by omega, h2⟩

/-- The fold over `range' j n` carries the invariant from `j` to
`j + n`. -/
theorem gapLoop_inv (l : List Bool) (thr first : Nat)
    (hft : l.getD first false = true)
    (hfm : ∀ i, i < first → l.getD i false = false) :
    ∀ (n j : Nat) (st : GapState), first ≤ j →
      GapInv l thr first j st →
      GapInv l thr first (j + n)
        ((List.range' j n).foldl (gapStep l thr) st) := by
  intro n
  induction n with
  | zero =>
      intro j st hj hinv
      simpa using hinv
  | succ n ih =>
      intro j st hj hinv
      rw [List.range'_succ, List.foldl_cons]
      have h1 := gapStep_inv hj hft hfm hinv
      have h2 := ih (j + 1) (gapStep l thr st j) (by omega) h1
      have heq : j + (n + 1) = (j + 1) + n := by omega
      rw [heq]
      exact h2

/-- When content exists, the span is positive and the threshold reaches
10, `find_gap_splits` is the fold of the scan loop. -/
theorem find_gap_splits_eq_loop {l : List Bool}
    (hany : l.any (fun b => b) = true)
    (hspan : lastTrue l - firstTrue l ≠ 0)
    (hthr : ¬((lastTrue l - firstTrue l) * 15 / 100 < 10)) :
    find_gap_splits l =
      ((List.range' (firstTrue l) (lastTrue l - firstTrue l)).foldl
        (gapStep l ((lastTrue l - firstTrue l) * 15 / 100))
        ⟨false, 0, []⟩).splits := by
  simp only [find_gap_splits]
  rw [if_neg (by simp [hany]), if_neg hspan, if_neg hthr]

/-- When the computed threshold stays below 10, the function returns no
splits at all. -/
theorem find_gap_splits_eq_nil {l : List Bool}
    (hany : l.any (fun b => b) = true)
    (hspan : lastTrue l - firstTrue l ≠ 0)
    (hthr : (lastTrue l - firstTrue l) * 15 / 100 < 10) :
    find_gap_splits l = [] := by
  simp only [find_gap_splits]
  rw [if_neg (by simp [hany]), if_neg hspan, if_pos hthr]

/-- Membership characterization of the split list produced by the loop. -/
theorem mem_find_gap_splits {l : List Bool}
    (hany : l.any (fun b => b) = true)
    (hspan : lastTrue l - firstTrue l ≠ 0)
    (hthr : ¬((lastTrue l - firstTrue l) * 15 / 100 < 10)) (e : Nat) :
    e ∈ find_gap_splits l ↔
      (e < lastTrue l ∧
        QualGap l ((lastTrue l - firstTrue l) * 15 / 100) e) := by
  have hft : l.getD (firstTrue l) false = true := getD_firstTrue hany
  have hfm : ∀ i, i < firstTrue l → l.getD i false = false :=
    fun i hi => getD_lt_firstTrue hi
  have hinv0 : GapInv l ((lastTrue l - firstTrue l) * 15 / 100)
      (firstTrue l) (firstTrue l) ⟨false, 0, []⟩ := by
    refine ⟨fun _ => Or.inl rfl, ?_, ?_⟩
    · intro habs
      cases habs
    · intro e0
      refine ⟨fun h => absurd h (List.not_mem_nil e0), ?_⟩
      rintro ⟨h1, s, hs, _⟩
      exfalso
      have hf := hfm e0 h1
      rw [hs.2.2.2.1] at hf
      cases hf
  have hloop := gapLoop_inv l ((lastTrue l - firstTrue l) * 15 / 100)
    (firstTrue l) hft hfm (lastTrue l - firstTrue l) (firstTrue l)
    ⟨false, 0, []⟩ le_rfl hinv0
  have hfl : firstTrue l + (lastTrue l - firstTrue l) = lastTrue l := by
    omega
  rw [hfl] at hloop
  rw [find_gap_splits_eq_loop hany hspan hthr]
  exact hloop.2.2 e

/-- C5 (amended): a maximal interior no-content run `[s, e)` becomes a
split point iff the integer gap threshold `int(0.15 * content_span)` is
at least 10 and the run length reaches that threshold. -/
theorem C5_gap_split_iff (l : List Bool) (s e : Nat) (hg : gapAt l s e) :
    e ∈ find_gap_splits l ↔
      (10 ≤ (lastTrue l - firstTrue l) * 15 / 100 ∧
        (lastTrue l - firstTrue l) * 15 / 100 ≤ e - s) := by
  obtain ⟨hg1, hg2, hg3, hg4, hg5⟩ := hg
  have hany := any_of_getD_true hg4
  have he_last : e < lastTrue l := getD_true_lt_lastTrue hg4
  have hs_first : firstTrue l ≤ s - 1 := firstTrue_le_of_getD_true hg3
  have hspan : lastTrue l - firstTrue l ≠ 0 := by omega
  by_cases hthr : (lastTrue l - firstTrue l) * 15 / 100 < 10
  · rw [find_gap_splits_eq_nil hany hspan hthr]
    constructor
    · intro h
      exact absurd h (List.not_mem_nil e)
    · rintro ⟨h10, _⟩
      omega
  · rw [mem_find_gap_splits hany hspan hthr e]
    constructor
    · rintro ⟨h1, s', hs', hthr'⟩
      have heqs : s' = s := gapAt_unique hs' ⟨hg1, hg2, hg3, hg4, hg5⟩
      rw [heqs] at hthr'
      exact ⟨by omega, hthr'⟩
    · rintro ⟨h10, hlen⟩
      exact ⟨he_last, ⟨s, ⟨hg1, hg2, hg3, hg4, hg5⟩, hlen⟩⟩

/-- C5 counterexample to the claim as stated: in a 20-wide axis with
content at the borders only, the interior gap of length 18 is at least
15 percent of the content span (18 >= 0.15 * 20), yet the code returns no
splits, because the integer threshold 3 falls below the hard minimum
of 10. -/
theorem C5_counterexample :
    gapAt ([true] ++ List.replicate 18 false ++ [true]) 1 19 ∧
      100 * (19 - 1) ≥
        15 * (lastTrue ([true] ++ List.replicate 18 false ++ [true]) -
          firstTrue ([true] ++ List.replicate 18 false ++ [true])) ∧
      19 ∉ find_gap_splits ([true] ++ List.replicate 18 false ++ [true]) := by
  decide

/-- Witness for the amended C5 at a 68-wide axis: threshold
`68 * 15 / 100 = 10`, the interior gap has length 66 and is reported as a
split. -/
theorem C5_gap_split_iff_witness :
    gapAt ([true] ++ List.replicate 66 false ++ [true]) 1 67 ∧
      (67 ∈ find_gap_splits ([true] ++ List.replicate 66 false ++ [true]) ↔
        (10 ≤ (lastTrue ([true] ++ List.replicate 66 false ++ [true]) -
            firstTrue ([true] ++ List.replicate 66 false ++ [true]))
              * 15 / 100 ∧
          (lastTrue ([true] ++ List.replicate 66 false ++ [true]) -
            firstTrue ([true] ++ List.replicate 66 false ++ [true]))
              * 15 / 100 ≤ 67 - 1)) :=
  ⟨by decide, C5_gap_split_iff ([true] ++ List.replicate 66 false ++ [true])
    1 67 (by decide)⟩

end TTE
